import Mathlib

/-!
Shallow embedding of the PhotoVerse repository core: src/models/adapters.py,
src/models/infer.py and src/models/modeling_utils.py.

Tensors are modelled over the rationals: a feature vector is a list of
rationals, one batch element of a (batch, seq, dim) tensor is a list of
position vectors, and a batched tensor is a list of such matrices.  The
feed-forward branch networks of the adapter (Linear, LayerNorm, LeakyReLU
stacks) are abstracted as per-index functions on vectors, because no claim
depends on their internals (LayerNorm needs real square roots); what the
claims exercise is how the forward pass slices, pools, adds and
concatenates, and that structure is embedded faithfully.
-/

set_option autoImplicit false

namespace PhotoVerse

/-- Feature vector: the last tensor dimension. -/
abbrev Vec := List ℚ

/-- One batch element of a (batch, seq, dim) tensor: a list of position vectors. -/
abbrev Mat := List Vec

/-- Batched tensor of shape (batch, seq, dim). -/
abbrev Tensor3 := List Mat

/-- Elementwise addition of two vectors. -/
def vecAdd (a b : Vec) : Vec := List.zipWith (· + ·) a b

/-- Sum of a list of rows; the empty sum is the empty vector (unused by the claims). -/
def vecSum : Mat → Vec
  | [] => []
  | r :: rs => rs.foldl vecAdd r

/-- Mean over rows: models tensor.mean over the sequence dimension. -/
def vecMean (m : Mat) : Vec := (vecSum m).map (fun x => x / (m.length : ℚ))

/-- Application of a pointwise (last-dimension) network over a batched tensor,
as torch applies an MLP to a (batch, seq, dim) input. -/
def applyLast (f : Vec → Vec) (t : Tensor3) : Tensor3 := t.map (fun m => m.map f)

/-- Models tensor.mean(dim=1, keepdim=True) on a (batch, seq, dim) tensor. -/
def meanKeepdim (t : Tensor3) : Tensor3 := t.map (fun m => [vecMean m])

/-- Elementwise addition of two batched tensors. -/
def addT (a b : Tensor3) : Tensor3 :=
  List.zipWith (fun m1 m2 => List.zipWith vecAdd m1 m2) a b

/-- Models torch.cat(ts, dim=1): concatenation along the sequence axis. -/
def catDim1 : List Tensor3 → Tensor3
  | [] => []
  | [t] => t
  | t :: ts => List.zipWith (fun m1 m2 => m1 ++ m2) t (catDim1 ts)

/-- Python runtime errors the embedded code can raise. -/
inductive PyError where
  | typeError
  | attributeError
  | runtimeError
  deriving DecidableEq

/-- Embedding of class PhotoVerseAdapter (src/models/adapters.py).  The two
MLP branch families registered by setattr in the constructor are modelled as
index families of vector functions; the constructor registers exactly the
indices 0 .. num_tokens-1. -/
structure PVAdapter where
  num_tokens : ℕ
  mapping : ℕ → Vec → Vec
  mapping_patch : ℕ → Vec → Vec

/-- Models getattr(self, "mapping_i"): the name lookup fails with
AttributeError when the constructor loop (range num_tokens) never registered
index i. -/
def PVAdapter.getMapping (A : PVAdapter) (i : ℕ) : Except PyError (Vec → Vec) :=
  if i < A.num_tokens then .ok (A.mapping i) else .error .attributeError

/-- Models getattr(self, "mapping_patch_i"). -/
def PVAdapter.getMappingPatch (A : PVAdapter) (i : ℕ) : Except PyError (Vec → Vec) :=
  if i < A.num_tokens then .ok (A.mapping_patch i) else .error .attributeError

/-- Loop of PhotoVerseAdapter.forward: for i, emb in enumerate(embs) compute
mapping_i(emb[:, :1]) + mapping_patch_i(emb[:, 1:]).mean(dim=1, keepdim=True),
accumulating the per-layer hidden states in order.  Errors surface at the
first index whose branch lookup fails. -/
def PVAdapter.forwardTokens (A : PVAdapter) : ℕ → List Tensor3 → Except PyError (List Tensor3)
  | _, [] => .ok []
  | i, emb :: rest =>
    match A.getMapping i with
    | .error e => .error e
    | .ok g =>
      match A.getMappingPatch i with
      | .error e => .error e
      | .ok p =>
        match A.forwardTokens (i + 1) rest with
        | .error e => .error e
        | .ok toks =>
          .ok (addT (applyLast g (emb.map (List.take 1)))
                 (meanKeepdim (applyLast p (emb.map (List.drop 1)))) :: toks)

/-- Embedding of PhotoVerseAdapter.forward: tuple accumulation followed by
torch.cat along dim=1 (torch.cat raises a RuntimeError on an empty tuple). -/
def PVAdapter.forward (A : PVAdapter) (embs : List Tensor3) : Except PyError Tensor3 :=
  match A.forwardTokens 0 embs with
  | .error e => .error e
  | .ok [] => .error .runtimeError
  | .ok toks => .ok (catDim1 toks)

/-- Pure value of the loop accumulation when every branch lookup succeeds. -/
def tokensFrom (A : PVAdapter) : ℕ → List Tensor3 → List Tensor3
  | _, [] => []
  | i, emb :: rest =>
    addT (applyLast (A.mapping i) (emb.map (List.take 1)))
      (meanKeepdim (applyLast (A.mapping_patch i) (emb.map (List.drop 1))))
    :: tokensFrom A (i + 1) rest

/-- Claim formula for one token: global branch on the CLS position plus the
mean over spatial positions of the patch branch. -/
def specAdapterToken (A : PVAdapter) (i : ℕ) (row : Mat) : Vec :=
  vecAdd (A.mapping i (row.headD []))
    (vecMean ((row.drop 1).map (A.mapping_patch i)))

/-- Claim formula for the whole forward pass: for each batch index the
sequence, in layer-index order, of the per-layer tokens. -/
def specAdapterOutput (A : PVAdapter) (embs : List Tensor3) (b : ℕ) : Tensor3 :=
  (List.range b).map (fun bi =>
    (List.range embs.length).map (fun i =>
      specAdapterToken A i ((embs.getD i []).getD bi [])))

/-- Concrete one-token adapter with constant width-one branches. -/
def A0 : PVAdapter := ⟨1, fun _ _ => [0], fun _ _ => [1]⟩

/-- Concrete two-token adapter with constant width-one branches. -/
def A1 : PVAdapter := ⟨2, fun _ _ => [0], fun _ _ => [1]⟩

/-- Concrete layer embedding: batch one, two positions, width one. -/
def e0 : Tensor3 := [[[0], [0]]]

/-! ## Embedding of src/models/infer.py -/

/-- Latent tensors, noise predictions and decoded images are flattened to
rational vectors; their shapes play no role in the claims about the loop. -/
abbrev Latent := List ℚ

/-- Internal history of the multistep solver, threaded through scheduler.step. -/
abbrev SchedState := List Latent

/-- Output of image_encoder(x, output_hidden_states=True): index 0 is the
last hidden state, index 2 the tuple of per-layer hidden states. -/
structure ImageFeats where
  out0 : Tensor3
  hidden : List Tensor3

/-- Embedding of the guarded list comprehension at infer.py lines 80-84:
[features[2][i] for i in idxs if i < len(features[2])]. -/
def selectLayers (hidden : List Tensor3) (idxs : List ℕ) : List Tensor3 :=
  (idxs.filter (fun i => decide (i < hidden.length))).map (fun i => hidden.getD i [])

/-- LayeredEmbedding construction: [features[0]] + the selected hidden layers. -/
def imageEmbeddingsOf (feats : ImageFeats) (idxs : List ℕ) : List Tensor3 :=
  feats.out0 :: selectLayers feats.hidden idxs

/-- Python call of an adapter module with a token_index keyword argument
(infer.py lines 89-91): argument binding fails with TypeError when the callee
forward method has no parameter named token_index. -/
structure AdapterModule where
  acceptsTokenIndex : Bool
  call : List Tensor3 → ℕ → Except PyError Tensor3

/-- Keyword call adapter(embs, token_index=ti). -/
def callWithTokenIndex (a : AdapterModule) (embs : List Tensor3) (ti : ℕ) :
    Except PyError Tensor3 :=
  if a.acceptsTokenIndex then a.call embs ti else .error .typeError

/-- PhotoVerseAdapter as a callable module: its forward signature is
forward(self, embs), with no token_index parameter. -/
def photoVerseModule (A : PVAdapter) : AdapterModule :=
  { acceptsTokenIndex := false, call := fun embs _ => A.forward embs }

/-- External collaborators of run_inference (tokenizer, encoders, unet, vae,
scheduler, RNG), modelled as pure functions.  The global torch RNG is an
abstract state of type ℕ threaded explicitly; torch.manual_seed(s) puts it
into the state s, and each random draw returns the successor state. -/
structure Models where
  text_adapter : AdapterModule
  image_adapter : AdapterModule
  tokenize_empty : ℕ → List (List ℕ)
  image_encode : List ℚ → ImageFeats
  text_encode_plain : List (List ℕ) → Tensor3
  text_encode_concept : List (List ℕ) → Tensor3 → List ℕ → Tensor3
  unet_pred : Latent → ℕ → Tensor3 → Tensor3 → Latent
  vae_sample : ℕ → List (List ℚ) → Latent × ℕ
  vae_scaling : ℚ
  vae_decode : Latent → List ℚ
  sched_timesteps : ℕ → List ℕ
  sched_init_sigma : ℚ
  sched_scale_input : Latent → ℕ → Latent
  sched_add_noise : Latent → Latent → ℕ → Latent
  sched_step : SchedState → Latent → ℕ → Latent → Latent × SchedState
  randn : ℕ → ℕ → ℕ → Latent × ℕ

/-- Embedding of the example dict consumed by run_inference. -/
structure InferExample where
  pixel_values : List (List ℚ)
  pixel_values_clip : List ℚ
  text_input_ids : List (List ℕ)
  concept_placeholder_idx : List ℕ
  negative_text_input_ids : Option (List (List ℕ))

/-- Lines 43-49: example.get("negative_text_input_ids") when present,
otherwise the tokenizer applied to one empty string per batch element,
padded to the tokenizer max length. -/
def uncond_input_ids_of (m : Models) (ex : InferExample) : List (List ℕ) :=
  match ex.negative_text_input_ids with
  | some ids => ids
  | none => m.tokenize_empty ex.pixel_values.length

/-- Line 93: unconditional text hidden states from the plain text encoder,
with no concept substitution arguments. -/
def uncond_embeddings_of (m : Models) (ex : InferExample) : Tensor3 :=
  m.text_encode_plain (uncond_input_ids_of m ex)

/-- torch.zeros_like on the clip pixel tensor. -/
def zerosLike (img : List ℚ) : List ℚ := img.map (fun _ => 0)

/-- Lines 76, 80-81, 86: conditional LayeredEmbedding (detach is a value
no-op in this pure embedding). -/
def cond_image_embeddings_of (m : Models) (ex : InferExample) (idxs : List ℕ) :
    List Tensor3 :=
  imageEmbeddingsOf (m.image_encode ex.pixel_values_clip) idxs

/-- Lines 77-78, 82-84, 87: unconditional LayeredEmbedding from the all-zero
image. -/
def uncond_image_embeddings_of (m : Models) (ex : InferExample) (idxs : List ℕ) :
    List Tensor3 :=
  imageEmbeddingsOf (m.image_encode (zerosLike ex.pixel_values_clip)) idxs

/-- Scalar multiplication of a latent. -/
def smulL (c : ℚ) (l : Latent) : Latent := l.map (fun x => c * x)

/-- Elementwise addition of latents. -/
def addL (a b : Latent) : Latent := List.zipWith (· + ·) a b

/-- Elementwise subtraction of latents. -/
def subL (a b : Latent) : Latent := List.zipWith (· - ·) a b

/-- Line 116: noise_pred_uncond + guidance_scale * (noise_pred_text -
noise_pred_uncond). -/
def guidedNoise (guidance_scale : ℚ) (noise_pred_uncond noise_pred_text : Latent) :
    Latent :=
  addL noise_pred_uncond (smulL guidance_scale (subL noise_pred_text noise_pred_uncond))

/-- torch clamp to the interval [-1, 1]. -/
def clampQ (x : ℚ) : ℚ := max (-1) (min 1 x)

/-- Observable state of the denoising loop: the latent, the multistep solver
history, the number of unet evaluations so far, and the per-iteration
gradient-tracking flag trace in iteration order. -/
structure LoopState where
  latents : Latent
  hist : SchedState
  unetEvals : ℕ
  gradLog : List Bool
  deriving DecidableEq

/-- Line 99: torch.set_grad_enabled(training_mode and (i == len(timesteps) - 1)). -/
def gradFlag (training_mode : Bool) (i total : ℕ) : Bool :=
  training_mode && (i == total - 1)

/-- One iteration of the loop at lines 98-119.  The two unet evaluations each
bump the evaluation counter; the gradient flag of the iteration is appended
to the trace. -/
def stepBody (m : Models) (guidance_scale : ℚ) (training_mode : Bool)
    (uncondText uncondImage condText condImage : Tensor3)
    (total i t : ℕ) (s : LoopState) : LoopState :=
  let grad := gradFlag training_mode i total
  let latent_model_input := m.sched_scale_input s.latents t
  let noise_pred_uncond := m.unet_pred latent_model_input t uncondText uncondImage
  let evalsA := s.unetEvals + 1
  let noise_pred_text := m.unet_pred latent_model_input t condText condImage
  let evalsB := evalsA + 1
  let noise_pred := guidedNoise guidance_scale noise_pred_uncond noise_pred_text
  let stepped := m.sched_step s.hist noise_pred t s.latents
  { latents := stepped.1, hist := stepped.2, unetEvals := evalsB,
    gradLog := s.gradLog ++ [grad] }

/-- The denoising loop over enumerate(scheduler.timesteps). -/
def denoiseLoop (m : Models) (guidance_scale : ℚ) (training_mode : Bool)
    (uncondText uncondImage condText condImage : Tensor3)
    (total : ℕ) : List (ℕ × ℕ) → LoopState → LoopState
  | [], s => s
  | p :: rest, s =>
    denoiseLoop m guidance_scale training_mode uncondText uncondImage condText condImage
      total rest
      (stepBody m guidance_scale training_mode uncondText uncondImage condText condImage
        total p.1 p.2 s)

/-- Start state of the global RNG: torch.manual_seed(seed) when a seed is
given, the ambient RNG state otherwise. -/
def rng_start (seed : Option ℕ) (ambient_rng : ℕ) : ℕ :=
  match seed with
  | none => ambient_rng
  | some s => s

/-- Lines 52-70: the initial latent.  With from_noised_image the vae encodes
and samples the real image (consuming the RNG after the noise draw), scales
by the vae scaling factor and adds noise at the first scheduler timestep;
otherwise the latent is the drawn noise.  Either way it is then scaled by the
initial noise sigma of the multistep solver. -/
def init_latents (m : Models) (ex : InferExample) (latent_size : ℕ)
    (timesteps : ℕ) (seed : Option ℕ) (from_noised_image : Bool)
    (ambient_rng : ℕ) : Latent :=
  let ts := m.sched_timesteps timesteps
  let drawn := m.randn (rng_start seed ambient_rng) ex.pixel_values.length latent_size
  let noise := drawn.1
  let latents0 :=
    if from_noised_image then
      let sampled := m.vae_sample drawn.2 ex.pixel_values
      m.sched_add_noise (smulL m.vae_scaling sampled.1) noise (ts.headD 0)
    else noise
  smulL m.sched_init_sigma latents0

/-- Lines 93-123 of run_inference once the three adapter calls have
succeeded: build the two conditioning pairs, run the denoising loop over
enumerate(scheduler.timesteps), unscale, decode and clamp. -/
def run_inference_core (m : Models) (ex : InferExample) (latent_size : ℕ)
    (guidance_scale : ℚ) (timesteps : ℕ) (seed : Option ℕ)
    (from_noised_image training_mode : Bool) (ambient_rng : ℕ)
    (concept_text_embeddings encoder_hidden_states_image
      uncond_encoder_hidden_states_image : Tensor3) : List ℚ × LoopState :=
  let ts := m.sched_timesteps timesteps
  let encoder_hidden_states :=
    m.text_encode_concept ex.text_input_ids concept_text_embeddings
      ex.concept_placeholder_idx
  let final := denoiseLoop m guidance_scale training_mode
    (uncond_embeddings_of m ex) uncond_encoder_hidden_states_image
    encoder_hidden_states encoder_hidden_states_image
    ts.length ts.enum
    { latents := init_latents m ex latent_size timesteps seed from_noised_image ambient_rng,
      hist := [], unetEvals := 0, gradLog := [] }
  ((m.vae_decode (smulL (1 / m.vae_scaling) final.latents)).map clampQ, final)

/-- Embedding of run_inference (src/models/infer.py).  The pure pre-loop
computations are factored into init_latents and run_inference_core; the
three adapter calls at lines 89-91 happen before any unet evaluation, and an
error result carries the number of unet evaluations performed at raise time. -/
def run_inference (m : Models) (ex : InferExample)
    (image_encoder_layers_idx : List ℕ) (latent_size : ℕ) (guidance_scale : ℚ)
    (timesteps : ℕ) (token_index : ℕ) (seed : Option ℕ)
    (from_noised_image training_mode : Bool) (ambient_rng : ℕ) :
    Except (PyError × ℕ) (List ℚ × LoopState) :=
  let image_embeddings := cond_image_embeddings_of m ex image_encoder_layers_idx
  let uncond_image_emmbedings := uncond_image_embeddings_of m ex image_encoder_layers_idx
  match callWithTokenIndex m.text_adapter image_embeddings token_index with
  | .error e => .error (e, 0)
  | .ok concept_text_embeddings =>
    match callWithTokenIndex m.image_adapter image_embeddings token_index with
    | .error e => .error (e, 0)
    | .ok encoder_hidden_states_image =>
      match callWithTokenIndex m.image_adapter uncond_image_emmbedings token_index with
      | .error e => .error (e, 0)
      | .ok uncond_encoder_hidden_states_image =>
        .ok (run_inference_core m ex latent_size guidance_scale timesteps seed
          from_noised_image training_mode ambient_rng
          concept_text_embeddings encoder_hidden_states_image
          uncond_encoder_hidden_states_image)

/-! ## Embedding of src/models/modeling_utils.py -/

/-- Parameter mapping of a module (state dict): association list from
parameter names to values. -/
abbrev SD := List (String × ℚ)

/-- Checkpoint mapping passed to load_photoverse_model: each of the three
groups may be present or absent. -/
structure CheckpointDict where
  image_adapter : Option SD
  text_adapter : Option SD
  cross_attention_adapter : Option SD

/-- nn.Module.load_state_dict with strict=True on its success path: the
module parameters are replaced by the checkpoint group (strict key checking
is outside the scope of the claims). -/
def load_state_dict_strict (_cur new : SD) : SD := new

/-- nn.Module.load_state_dict with strict=False: parameters named in the
loaded group are overwritten, all other parameters keep their values. -/
def load_state_dict_lax (cur new : SD) : SD :=
  cur.map (fun kv =>
    match new.lookup kv.1 with
    | some v => (kv.1, v)
    | none => kv)

/-- Embedding of load_photoverse_model (src/models/modeling_utils.py lines
13-22): each group is restored exactly when its key is present in the
checkpoint mapping; the unet load uses strict=False. -/
def load_photoverse_model (state_dict : CheckpointDict)
    (image_adapter text_adapter unet : SD) : SD × SD × SD :=
  let ia := match state_dict.image_adapter with
    | some g => load_state_dict_strict image_adapter g
    | none => image_adapter
  let ta := match state_dict.text_adapter with
    | some g => load_state_dict_strict text_adapter g
    | none => text_adapter
  let un := match state_dict.cross_attention_adapter with
    | some g => load_state_dict_lax unet g
    | none => unet
  (ia, ta, un)

/-! ## Concrete fixtures used by the witnesses and counterexamples -/

/-- Trivial collaborator bundle used by the witnesses: every tensor-valued
collaborator returns the empty tensor, the scheduler emits the requested
number of timesteps, and both adapters accept the token_index keyword. -/
def mTest : Models :=
  { text_adapter := ⟨true, fun _ _ => .ok []⟩
    image_adapter := ⟨true, fun _ _ => .ok []⟩
    tokenize_empty := fun _ => []
    image_encode := fun _ => ⟨[], []⟩
    text_encode_plain := fun _ => []
    text_encode_concept := fun _ _ _ => []
    unet_pred := fun _ _ _ _ => []
    vae_sample := fun r _ => ([], r)
    vae_scaling := 1
    vae_decode := fun _ => []
    sched_timesteps := fun t => List.range t
    sched_init_sigma := 1
    sched_scale_input := fun l _ => l
    sched_add_noise := fun l _ _ => l
    sched_step := fun h np _ _ => (np, h)
    randn := fun r _ _ => ([], r) }

/-- Concrete example input (batch size one) used by the witnesses. -/
def exTest : InferExample := ⟨[[0]], [0], [[1]], [0], none⟩

/-- Collaborator bundle for the C4 counterexample: the tokenizer encodes an
empty string as id 0 and the plain text encoder embeds ids numerically. -/
def mC4 : Models :=
  { mTest with
    tokenize_empty := fun n => List.replicate n [0]
    text_encode_plain := fun ids => ids.map (fun row => row.map (fun t => [(t : ℚ)])) }

/-- Example input carrying explicit negative prompt ids. -/
def exC4 : InferExample := ⟨[[0]], [0], [[1]], [0], some [[7]]⟩

/-- Concrete checkpoint containing only the image-adapter group. -/
def sd0 : CheckpointDict := ⟨some [("w", 1)], none, none⟩

/-- Concrete pre-load image adapter parameters. -/
def ia0 : SD := [("w", 0)]

/-- Concrete pre-load text adapter parameters. -/
def ta0 : SD := [("v", 5)]

/-- Concrete pre-load unet parameters. -/
def un0 : SD := [("u", 3)]

/-! ## Helper lemmas -/

lemma zipWith_self_map {α δ : Type*} (k : α → α → δ) :
    ∀ l : List α, List.zipWith k l l = l.map (fun x => k x x)
  | [] => rfl
  | a :: l => by simp [zipWith_self_map k l]

lemma zipWith_map_same {α β γ δ : Type*} (f : β → γ → δ) (g : α → β) (h : α → γ)
    (l : List α) :
    List.zipWith f (l.map g) (l.map h) = l.map (fun x => f (g x) (h x)) := by
  rw [List.zipWith_map, zipWith_self_map]

lemma range_map_getD {α : Type*} : ∀ (l : List α) (d : α),
    (List.range l.length).map (fun i => l.getD i d) = l
  | [], _ => rfl
  | a :: l, d => by
    rw [List.length_cons, List.range_succ_eq_map, List.map_cons, List.map_map]
    simp only [Function.comp_def, List.getD_cons_succ, List.getD_cons_zero]
    rw [range_map_getD l d]

lemma getD_map_lt {α β : Type*} (f : α → β) (d1 : β) (d2 : α) :
    ∀ (l : List α) (i : ℕ), i < l.length → (l.map f).getD i d1 = f (l.getD i d2)
  | a :: l, 0, _ => rfl
  | a :: l, i + 1, h => by
    simp only [List.map_cons, List.getD_cons_succ]
    exact getD_map_lt f d1 d2 l i (by simpa using h)
  | [], i, h => by simp at h

lemma getD_mem {α : Type*} (d : α) : ∀ (l : List α) (i : ℕ), i < l.length → l.getD i d ∈ l
  | a :: l, 0, _ => List.mem_cons_self a l
  | a :: l, i + 1, h => List.mem_cons_of_mem a (getD_mem d l i (by simpa using h))
  | [], i, h => absurd h (by simp)

lemma guidedNoise_one : ∀ (u c : Latent), u.length = c.length → guidedNoise 1 u c = c
  | [], [], _ => rfl
  | [], _ :: _, h => by simp at h
  | _ :: _, [], h => by simp at h
  | a :: us, b :: cs, h => by
    have ih := guidedNoise_one us cs (by simpa using h)
    simp only [guidedNoise, addL, smulL, subL, List.zipWith_cons_cons, List.map_cons,
      List.cons.injEq] at ih ⊢
    exact ⟨by ring, ih⟩

/-! ## Claim theorems (first group) -/

/-- C2: with guidance_scale = 1 the guided prediction noise_uncond +
guidance_scale * (noise_cond - noise_uncond) collapses to the conditional
prediction, so the scheduler latent update of the step depends only on the
conditional unet evaluation. -/
theorem guidance_scale_one_degenerate (m : Models) (u c : Latent)
    (h : u.length = c.length) (tm : Bool) (ut ui ct ci : Tensor3)
    (total i t : ℕ) (s : LoopState)
    (hpred : (m.unet_pred (m.sched_scale_input s.latents t) t ut ui).length
      = (m.unet_pred (m.sched_scale_input s.latents t) t ct ci).length) :
    guidedNoise 1 u c = c ∧
    (stepBody m 1 tm ut ui ct ci total i t s).latents
      = (m.sched_step s.hist
          (m.unet_pred (m.sched_scale_input s.latents t) t ct ci) t s.latents).1 := by
  refine ⟨guidedNoise_one u c h, ?_⟩
  simp only [stepBody]
  rw [guidedNoise_one _ _ hpred]

/-- C3: when both stream adapters are PhotoVerseAdapter instances,
run_inference fails with the TypeError raised by the token_index keyword
call at line 89, before any unet evaluation (the error carries unet
evaluation count 0). -/
theorem photoverse_adapters_type_error (A B : PVAdapter) (m : Models)
    (ex : InferExample) (idxs : List ℕ) (latent_size : ℕ) (gsc : ℚ)
    (T ti : ℕ) (seed : Option ℕ) (fni tm : Bool) (amb : ℕ) :
    run_inference
      { m with text_adapter := photoVerseModule A, image_adapter := photoVerseModule B }
      ex idxs latent_size gsc T ti seed fni tm amb
      = .error (.typeError, 0) := by
  simp [run_inference, callWithTokenIndex, photoVerseModule]

/-- C8: each checkpoint group is restored exactly when its key is present;
an absent group raises no error and leaves the corresponding parameters
unchanged, so an image-adapter-only checkpoint leaves the text adapter and
the unet cross-attention parameters at their pre-load values. -/
theorem load_photoverse_partial (sd : CheckpointDict) (ia ta un : SD) :
    (sd.image_adapter = none → (load_photoverse_model sd ia ta un).1 = ia) ∧
    (∀ g, sd.image_adapter = some g →
      (load_photoverse_model sd ia ta un).1 = load_state_dict_strict ia g) ∧
    (sd.text_adapter = none → (load_photoverse_model sd ia ta un).2.1 = ta) ∧
    (∀ g, sd.text_adapter = some g →
      (load_photoverse_model sd ia ta un).2.1 = load_state_dict_strict ta g) ∧
    (sd.cross_attention_adapter = none → (load_photoverse_model sd ia ta un).2.2 = un) ∧
    (∀ g, sd.cross_attention_adapter = some g →
      (load_photoverse_model sd ia ta un).2.2 = load_state_dict_lax un g) := by
  refine ⟨fun h => ?_, fun g h => ?_, fun h => ?_, fun g h => ?_, fun h => ?_, fun g h => ?_⟩
  all_goals simp [load_photoverse_model, h]

/-- Witness for C8: loading an image-adapter-only checkpoint restores the
image adapter and leaves text adapter and unet parameters unchanged. -/
theorem load_photoverse_partial_witness :
    (load_photoverse_model sd0 ia0 ta0 un0).2.1 = ta0 ∧
    (load_photoverse_model sd0 ia0 ta0 un0).2.2 = un0 ∧
    (load_photoverse_model sd0 ia0 ta0 un0).1 = load_state_dict_strict ia0 [("w", 1)] := by
  have h := load_photoverse_partial sd0 ia0 ta0 un0
  exact ⟨h.2.2.1 rfl, h.2.2.2.2.1 rfl, h.2.1 [("w", 1)] rfl⟩

/-- C10: with a fixed seed the sampler output is independent of the ambient
RNG state, so two runs with identical seed, inputs and model weights return
identical results. -/
theorem seeded_runs_identical (m : Models) (ex : InferExample) (idxs : List ℕ)
    (latent_size : ℕ) (gsc : ℚ) (T ti : ℕ) (s : ℕ) (fni tm : Bool)
    (amb1 amb2 : ℕ) :
    run_inference m ex idxs latent_size gsc T ti (some s) fni tm amb1
      = run_inference m ex idxs latent_size gsc T ti (some s) fni tm amb2 := by
  have hinit : init_latents m ex latent_size T (some s) fni amb1
      = init_latents m ex latent_size T (some s) fni amb2 := by
    simp [init_latents, rng_start]
  have hcore : ∀ cte ehi uehi,
      run_inference_core m ex latent_size gsc T (some s) fni tm amb1 cte ehi uehi
        = run_inference_core m ex latent_size gsc T (some s) fni tm amb2 cte ehi uehi := by
    intro cte ehi uehi
    simp only [run_inference_core, hinit]
  simp only [run_inference]
  simp only [hcore]

/-! ## Loop trace lemmas -/

lemma denoiseLoop_unetEvals (m : Models) (g : ℚ) (tm : Bool) (ut ui ct ci : Tensor3)
    (total : ℕ) : ∀ (steps : List (ℕ × ℕ)) (s : LoopState),
    (denoiseLoop m g tm ut ui ct ci total steps s).unetEvals
      = s.unetEvals + 2 * steps.length
  | [], s => rfl
  | p :: rest, s => by
    have ih := denoiseLoop_unetEvals m g tm ut ui ct ci total rest
      (stepBody m g tm ut ui ct ci total p.1 p.2 s)
    simp only [denoiseLoop]
    rw [ih]
    simp only [stepBody, List.length_cons]
    omega

lemma denoiseLoop_gradLog (m : Models) (g : ℚ) (tm : Bool) (ut ui ct ci : Tensor3)
    (total : ℕ) : ∀ (steps : List (ℕ × ℕ)) (s : LoopState),
    (denoiseLoop m g tm ut ui ct ci total steps s).gradLog
      = s.gradLog ++ steps.map (fun p => gradFlag tm p.1 total)
  | [], s => by simp [denoiseLoop]
  | p :: rest, s => by
    have ih := denoiseLoop_gradLog m g tm ut ui ct ci total rest
      (stepBody m g tm ut ui ct ci total p.1 p.2 s)
    simp only [denoiseLoop]
    rw [ih]
    simp [stepBody]

lemma run_inference_core_trace (m : Models) (ex : InferExample) (latent_size : ℕ)
    (gsc : ℚ) (T : ℕ) (seed : Option ℕ) (fni tm : Bool) (amb : ℕ)
    (cte ehi uehi : Tensor3) :
    (run_inference_core m ex latent_size gsc T seed fni tm amb cte ehi uehi).2.gradLog
      = ((m.sched_timesteps T).enum).map
          (fun p => gradFlag tm p.1 (m.sched_timesteps T).length) ∧
    (run_inference_core m ex latent_size gsc T seed fni tm amb cte ehi uehi).2.unetEvals
      = 2 * (m.sched_timesteps T).length := by
  constructor
  · simp only [run_inference_core]
    rw [denoiseLoop_gradLog]
    simp
  · simp only [run_inference_core]
    rw [denoiseLoop_unetEvals]
    simp [List.enum_length]

lemma run_inference_ok_elim (m : Models) (ex : InferExample) (idxs : List ℕ)
    (latent_size : ℕ) (gsc : ℚ) (T ti : ℕ) (seed : Option ℕ) (fni tm : Bool)
    (amb : ℕ) (r : List ℚ × LoopState)
    (h : run_inference m ex idxs latent_size gsc T ti seed fni tm amb = .ok r) :
    ∃ cte ehi uehi,
      r = run_inference_core m ex latent_size gsc T seed fni tm amb cte ehi uehi := by
  simp only [run_inference] at h
  cases hA : callWithTokenIndex m.text_adapter (cond_image_embeddings_of m ex idxs) ti with
  | error e => rw [hA] at h; simp at h
  | ok cte =>
    rw [hA] at h
    cases hB : callWithTokenIndex m.image_adapter (cond_image_embeddings_of m ex idxs) ti with
    | error e => rw [hB] at h; simp at h
    | ok ehi =>
      rw [hB] at h
      cases hC : callWithTokenIndex m.image_adapter
          (uncond_image_embeddings_of m ex idxs) ti with
      | error e => rw [hC] at h; simp at h
      | ok uehi =>
        rw [hC] at h
        simp only [Except.ok.injEq] at h
        exact ⟨cte, ehi, uehi, h.symm⟩

lemma enum_map_gradFlag (tm : Bool) (l : List ℕ) (total : ℕ) :
    l.enum.map (fun p => gradFlag tm p.1 total)
      = (List.range l.length).map (fun i => gradFlag tm i total) := by
  rw [← List.enum_map_fst l, List.map_map]
  rfl

lemma map_gradFlag_false (l : List ℕ) (total : ℕ) :
    l.map (fun i => gradFlag false i total) = List.replicate l.length false := by
  induction l with
  | nil => rfl
  | cons a l ih => simp [gradFlag, ih, List.replicate_succ]

lemma range_map_const_false : ∀ k : ℕ,
    (List.range k).map (fun _ : ℕ => false) = List.replicate k false
  | 0 => rfl
  | k + 1 => by
    rw [List.range_succ, List.map_append, range_map_const_false k, List.replicate_succ']
    rfl

lemma range_map_gradFlag_true (k : ℕ) :
    (List.range (k + 1)).map (fun i => gradFlag true i (k + 1))
      = List.replicate k false ++ [true] := by
  rw [List.range_succ, List.map_append]
  have h1 : (List.range k).map (fun i => gradFlag true i (k + 1))
      = (List.range k).map (fun _ => false) := by
    refine List.map_congr_left (fun i hi => ?_)
    have hik : i < k := List.mem_range.mp hi
    simp [gradFlag, Nat.ne_of_lt hik]
  rw [h1, range_map_const_false k]
  simp [gradFlag]

/-! ## Claim theorems: loop trace -/

/-- C5: on a successful run, with training_mode = False every one of the loop
iterations runs with gradient tracking disabled; with training_mode = True
gradient tracking is enabled at exactly the final iteration and disabled at
every earlier one. -/
theorem grad_tracking_policy (m : Models) (ex : InferExample) (idxs : List ℕ)
    (latent_size : ℕ) (gsc : ℚ) (T ti : ℕ) (seed : Option ℕ) (fni tm : Bool)
    (amb : ℕ) (r : List ℚ × LoopState)
    (h : run_inference m ex idxs latent_size gsc T ti seed fni tm amb = .ok r) :
    (tm = false → r.2.gradLog = List.replicate (m.sched_timesteps T).length false) ∧
    (tm = true → ∀ k, (m.sched_timesteps T).length = k + 1 →
      r.2.gradLog = List.replicate k false ++ [true]) := by
  obtain ⟨cte, ehi, uehi, rfl⟩ :=
    run_inference_ok_elim m ex idxs latent_size gsc T ti seed fni tm amb r h
  have hlog := (run_inference_core_trace m ex latent_size gsc T seed fni tm amb
    cte ehi uehi).1
  rw [enum_map_gradFlag] at hlog
  constructor
  · rintro rfl
    rw [hlog, map_gradFlag_false, List.length_range]
  · rintro rfl k hk
    rw [hlog, hk, range_map_gradFlag_true]

/-- C9: a successful run whose scheduler produces T timesteps performs
exactly T loop iterations (one gradient-trace entry per iteration) and
exactly two unet evaluations per iteration, 2T in total. -/
theorem denoise_step_count (m : Models) (ex : InferExample) (idxs : List ℕ)
    (latent_size : ℕ) (gsc : ℚ) (T ti : ℕ) (seed : Option ℕ) (fni tm : Bool)
    (amb : ℕ) (r : List ℚ × LoopState)
    (hT : (m.sched_timesteps T).length = T)
    (h : run_inference m ex idxs latent_size gsc T ti seed fni tm amb = .ok r) :
    r.2.gradLog.length = T ∧ r.2.unetEvals = 2 * r.2.gradLog.length ∧
    r.2.unetEvals = 2 * T := by
  obtain ⟨cte, ehi, uehi, rfl⟩ :=
    run_inference_ok_elim m ex idxs latent_size gsc T ti seed fni tm amb r h
  have htr := run_inference_core_trace m ex latent_size gsc T seed fni tm amb cte ehi uehi
  have hlen : (run_inference_core m ex latent_size gsc T seed fni tm amb
      cte ehi uehi).2.gradLog.length = T := by
    rw [htr.1, List.length_map, List.enum_length, hT]
  exact ⟨hlen, by rw [htr.2, hlen, hT], by rw [htr.2, hT]⟩

/-- Witness for C2: the guided prediction at guidance scale one equals the
conditional prediction on concrete latents, and the concrete scheduler step
agrees with the conditional-only step. -/
theorem guidance_scale_one_degenerate_witness :
    guidedNoise 1 [0] [1] = [1] ∧
    (stepBody mTest 1 false [] [] [] [] 1 0 0 ⟨[], [], 0, []⟩).latents
      = (mTest.sched_step []
          (mTest.unet_pred (mTest.sched_scale_input [] 0) 0 [] []) 0 []).1 :=
  guidance_scale_one_degenerate mTest [0] [1] rfl false [] [] [] [] 1 0 0
    ⟨[], [], 0, []⟩ rfl

/-- Witness for C5: a concrete two-step run with training_mode false logs no
enabled step, and with training_mode true logs the enabled flag exactly at
the final iteration. -/
theorem grad_tracking_policy_witness :
    (⟨[], [], 4, [false, false]⟩ : LoopState).gradLog
      = List.replicate (mTest.sched_timesteps 2).length false ∧
    (⟨[], [], 4, [false, true]⟩ : LoopState).gradLog
      = List.replicate 1 false ++ [true] :=
  ⟨(grad_tracking_policy mTest exTest [] 64 1 2 0 none false false 0
      ([], ⟨[], [], 4, [false, false]⟩) rfl).1 rfl,
   (grad_tracking_policy mTest exTest [] 64 1 2 0 none false true 0
      ([], ⟨[], [], 4, [false, true]⟩) rfl).2 rfl 1 rfl⟩

/-- Witness for C9: a concrete run with two requested timesteps performs two
iterations and four unet evaluations. -/
theorem denoise_step_count_witness :
    (⟨[], [], 4, [false, false]⟩ : LoopState).gradLog.length = 2 ∧
    (⟨[], [], 4, [false, false]⟩ : LoopState).unetEvals
      = 2 * (⟨[], [], 4, [false, false]⟩ : LoopState).gradLog.length ∧
    (⟨[], [], 4, [false, false]⟩ : LoopState).unetEvals = 2 * 2 :=
  denoise_step_count mTest exTest [] 64 1 2 0 none false false 0
    ([], ⟨[], [], 4, [false, false]⟩) rfl rfl

/-! ## Claim C4: unconditional text branch -/

/-- Counterexample for C4: when the example supplies negative_text_input_ids,
the unconditional text hidden states are computed from those ids, not from an
empty-string prompt, so the claimed equality fails on this input. -/
theorem uncond_prompt_cex :
    exC4.negative_text_input_ids = some [[7]] ∧
    uncond_embeddings_of mC4 exC4
      ≠ mC4.text_encode_plain (mC4.tokenize_empty exC4.pixel_values.length) :=
  ⟨rfl, by decide⟩

/-- C4 (amended): when the example supplies no negative_text_input_ids the
unconditional text hidden states come from encoding an empty-string prompt
(one per batch element) through the base text encoder; when negative ids are
present those are encoded instead.  In both cases no adapter-token
substitution happens and the text-stream adapter is never invoked for the
unconditional branch: the result is independent of the text adapter and of
the concept-substituting encoder mode. -/
theorem uncond_prompt_policy (m : Models) (ex : InferExample) :
    (ex.negative_text_input_ids = none →
      uncond_embeddings_of m ex
        = m.text_encode_plain (m.tokenize_empty ex.pixel_values.length)) ∧
    (∀ ids, ex.negative_text_input_ids = some ids →
      uncond_embeddings_of m ex = m.text_encode_plain ids) ∧
    (∀ ta, uncond_embeddings_of { m with text_adapter := ta } ex
      = uncond_embeddings_of m ex) ∧
    (∀ f, uncond_embeddings_of { m with text_encode_concept := f } ex
      = uncond_embeddings_of m ex) := by
  refine ⟨fun h => ?_, fun ids h => ?_, fun ta => rfl, fun f => rfl⟩
  · simp [uncond_embeddings_of, uncond_input_ids_of, h]
  · simp [uncond_embeddings_of, uncond_input_ids_of, h]

/-- Witness for C4 (amended) at a concrete input without negative ids. -/
theorem uncond_prompt_policy_witness :
    uncond_embeddings_of mTest exTest
      = mTest.text_encode_plain (mTest.tokenize_empty exTest.pixel_values.length) :=
  (uncond_prompt_policy mTest exTest).1 rfl

/-! ## Claim C7: out-of-range layer indices -/

lemma selectLayers_skip (hidden : List Tensor3) (pre post : List ℕ) (i : ℕ)
    (hi : hidden.length ≤ i) :
    selectLayers hidden (pre ++ i :: post) = selectLayers hidden (pre ++ post) := by
  simp only [selectLayers, List.filter_append, List.filter_cons]
  have hdec : decide (i < hidden.length) = false := by
    simp only [decide_eq_false_iff_not]
    omega
  rw [hdec]
  simp

lemma run_inference_idxs_congr (m : Models) (ex : InferExample)
    (idxs1 idxs2 : List ℕ) (latent_size : ℕ) (gsc : ℚ) (T ti : ℕ)
    (seed : Option ℕ) (fni tm : Bool) (amb : ℕ)
    (h1 : cond_image_embeddings_of m ex idxs1 = cond_image_embeddings_of m ex idxs2)
    (h2 : uncond_image_embeddings_of m ex idxs1 = uncond_image_embeddings_of m ex idxs2) :
    run_inference m ex idxs1 latent_size gsc T ti seed fni tm amb
      = run_inference m ex idxs2 latent_size gsc T ti seed fni tm amb := by
  simp only [run_inference]
  rw [h1, h2]

/-- C7: a selected layer index at or beyond the vision encoder depth does not
raise: it is silently omitted from both the conditional and the unconditional
LayeredEmbedding, so run_inference behaves exactly as if the index were
absent; every in-range index contributes its hidden state, and the length of
the LayeredEmbedding is one (the final hidden state) plus the number of
in-range indices. -/
theorem layer_index_guard (m : Models) (ex : InferExample) (pre post : List ℕ)
    (i : ℕ) (latent_size : ℕ) (gsc : ℚ) (T ti : ℕ) (seed : Option ℕ)
    (fni tm : Bool) (amb : ℕ)
    (hF : (m.image_encode ex.pixel_values_clip).hidden.length ≤ i)
    (hG : (m.image_encode (zerosLike ex.pixel_values_clip)).hidden.length ≤ i) :
    run_inference m ex (pre ++ i :: post) latent_size gsc T ti seed fni tm amb
      = run_inference m ex (pre ++ post) latent_size gsc T ti seed fni tm amb ∧
    cond_image_embeddings_of m ex (pre ++ i :: post)
      = cond_image_embeddings_of m ex (pre ++ post) ∧
    uncond_image_embeddings_of m ex (pre ++ i :: post)
      = uncond_image_embeddings_of m ex (pre ++ post) ∧
    (∀ j ∈ pre ++ i :: post,
      j < (m.image_encode ex.pixel_values_clip).hidden.length →
      (m.image_encode ex.pixel_values_clip).hidden.getD j []
        ∈ cond_image_embeddings_of m ex (pre ++ i :: post)) ∧
    (cond_image_embeddings_of m ex (pre ++ i :: post)).length
      = 1 + ((pre ++ i :: post).filter
          (fun j => decide (j < (m.image_encode ex.pixel_values_clip).hidden.length))).length := by
  have h1 : cond_image_embeddings_of m ex (pre ++ i :: post)
      = cond_image_embeddings_of m ex (pre ++ post) := by
    simp only [cond_image_embeddings_of, imageEmbeddingsOf]
    rw [selectLayers_skip _ _ _ _ hF]
  have h2 : uncond_image_embeddings_of m ex (pre ++ i :: post)
      = uncond_image_embeddings_of m ex (pre ++ post) := by
    simp only [uncond_image_embeddings_of, imageEmbeddingsOf]
    rw [selectLayers_skip _ _ _ _ hG]
  refine ⟨run_inference_idxs_congr m ex _ _ latent_size gsc T ti seed fni tm amb h1 h2,
    h1, h2, ?_, ?_⟩
  · intro j hj hjlt
    refine List.mem_cons_of_mem _ (List.mem_map.mpr ⟨j, ?_, rfl⟩)
    exact List.mem_filter.mpr ⟨hj, by simpa using hjlt⟩
  · simp [cond_image_embeddings_of, imageEmbeddingsOf, selectLayers, Nat.add_comm]

/-- Witness for C7: with a depth-zero concrete encoder, index 5 is skipped
and run_inference coincides with the run on the remaining indices. -/
theorem layer_index_guard_witness :
    run_inference mTest exTest ([0] ++ 5 :: []) 64 1 1 0 none false false 0
      = run_inference mTest exTest ([0] ++ []) 64 1 1 0 none false false 0 :=
  (layer_index_guard mTest exTest [0] [] 5 64 1 1 0 none false false 0
    (by decide) (by decide)).1

/-! ## Adapter forward lemmas -/

lemma forwardTokens_ok (A : PVAdapter) : ∀ (embs : List Tensor3) (i : ℕ),
    i + embs.length ≤ A.num_tokens →
    A.forwardTokens i embs = .ok (tokensFrom A i embs)
  | [], _, _ => rfl
  | emb :: rest, i, h => by
    have hi : i < A.num_tokens := by
      simp only [List.length_cons] at h
      omega
    have ih := forwardTokens_ok A rest (i + 1)
      (by simp only [List.length_cons] at h; omega)
    simp only [PVAdapter.forwardTokens, PVAdapter.getMapping, PVAdapter.getMappingPatch,
      if_pos hi, ih, tokensFrom]

lemma forwardTokens_err (A : PVAdapter) : ∀ (embs : List Tensor3) (i : ℕ),
    i ≤ A.num_tokens → A.num_tokens < i + embs.length →
    A.forwardTokens i embs = .error .attributeError
  | [], i, hle, hlt => by
    exfalso
    simp only [List.length_nil, Nat.add_zero] at hlt
    omega
  | emb :: rest, i, hle, hlt => by
    by_cases hi : i < A.num_tokens
    · have ih := forwardTokens_err A rest (i + 1) hi
        (by simp only [List.length_cons] at hlt; omega)
      simp only [PVAdapter.forwardTokens, PVAdapter.getMapping, PVAdapter.getMappingPatch,
        if_pos hi, ih]
    · simp only [PVAdapter.forwardTokens, PVAdapter.getMapping, if_neg hi]

lemma token_rows (A : PVAdapter) (i : ℕ) (emb : Tensor3)
    (hne : ∀ r ∈ emb, r ≠ []) :
    addT (applyLast (A.mapping i) (emb.map (List.take 1)))
      (meanKeepdim (applyLast (A.mapping_patch i) (emb.map (List.drop 1))))
    = emb.map (fun r => [specAdapterToken A i r]) := by
  simp only [addT, applyLast, meanKeepdim, List.map_map]
  rw [zipWith_map_same]
  refine List.map_congr_left (fun r hr => ?_)
  obtain ⟨x, t, rfl⟩ : ∃ x t, r = x :: t := by
    cases r with
    | nil => exact absurd rfl (hne [] hr)
    | cons x t => exact ⟨x, t, rfl⟩
  simp [specAdapterToken]

lemma tokensFrom_length (A : PVAdapter) : ∀ (j : ℕ) (embs : List Tensor3),
    (tokensFrom A j embs).length = embs.length
  | _, [] => rfl
  | j, emb :: rest => by
    simp [tokensFrom, tokensFrom_length A (j + 1) rest]

lemma tokensFrom_mem_length (A : PVAdapter) (b : ℕ) : ∀ (j : ℕ) (embs : List Tensor3),
    (∀ e ∈ embs, e.length = b) → (∀ e ∈ embs, ∀ r ∈ e, r ≠ []) →
    ∀ tk ∈ tokensFrom A j embs, tk.length = b
  | _, [], _, _ => by simp [tokensFrom]
  | j, emb :: rest, hb, hne => by
    intro tk htk
    simp only [tokensFrom, List.mem_cons] at htk
    rcases htk with rfl | htk
    · rw [token_rows A j emb (hne emb (List.mem_cons_self _ _))]
      simp [hb emb (List.mem_cons_self _ _)]
    · exact tokensFrom_mem_length A b (j + 1) rest
        (fun e he => hb e (List.mem_cons_of_mem _ he))
        (fun e he => hne e (List.mem_cons_of_mem _ he)) tk htk

lemma catDim1_slices (b : ℕ) : ∀ (ts : List Tensor3), ts ≠ [] →
    (∀ t ∈ ts, t.length = b) →
    catDim1 ts = (List.range b).map (fun bi => (ts.map (fun t => t.getD bi [])).flatten)
  | [], h, _ => absurd rfl h
  | [t], _, hb => by
    have ht : t.length = b := hb t (List.mem_cons_self _ _)
    simp only [catDim1, List.map_cons, List.map_nil, List.flatten_cons, List.flatten_nil,
      List.append_nil]
    rw [← ht, range_map_getD]
  | t :: t2 :: rest, _, hb => by
    have ih := catDim1_slices b (t2 :: rest) (by simp)
      (fun u hu => hb u (List.mem_cons_of_mem _ hu))
    have ht : t.length = b := hb t (List.mem_cons_self _ _)
    simp only [catDim1]
    rw [ih]
    conv_lhs => rw [show t = (List.range b).map (fun bi => t.getD bi []) from by
      rw [← ht, range_map_getD]]
    rw [zipWith_map_same]
    refine List.map_congr_left (fun bi _ => ?_)
    simp

lemma tokensFrom_slice (A : PVAdapter) (b : ℕ) : ∀ (embs : List Tensor3) (j bi : ℕ),
    bi < b → (∀ e ∈ embs, e.length = b) → (∀ e ∈ embs, ∀ r ∈ e, r ≠ []) →
    ((tokensFrom A j embs).map (fun tk => tk.getD bi [])).flatten
      = (List.range embs.length).map
          (fun i => specAdapterToken A (j + i) ((embs.getD i []).getD bi []))
  | [], _, _, _, _, _ => rfl
  | emb :: rest, j, bi, hbi, hb, hne => by
    have hemb : emb.length = b := hb emb (List.mem_cons_self _ _)
    have ih := tokensFrom_slice A b rest (j + 1) bi hbi
      (fun e he => hb e (List.mem_cons_of_mem _ he))
      (fun e he => hne e (List.mem_cons_of_mem _ he))
    simp only [tokensFrom, List.map_cons, List.flatten_cons]
    rw [token_rows A j emb (hne emb (List.mem_cons_self _ _))]
    rw [getD_map_lt _ _ [] emb bi (by rw [hemb]; exact hbi)]
    rw [ih]
    rw [List.length_cons, List.range_succ_eq_map, List.map_cons, List.map_map]
    simp only [List.getD_cons_zero, List.getD_cons_succ, Nat.add_zero, Function.comp_def]
    rw [List.singleton_append]
    congr 1
    refine List.map_congr_left (fun i _ => ?_)
    congr 1
    omega

lemma forward_ok_spec (A : PVAdapter) (embs : List Tensor3) (b : ℕ)
    (hne : embs ≠ []) (hlen : embs.length ≤ A.num_tokens)
    (hb : ∀ e ∈ embs, e.length = b)
    (hrow : ∀ e ∈ embs, ∀ r ∈ e, r ≠ []) :
    A.forward embs = .ok (specAdapterOutput A embs b) := by
  have hToks := forwardTokens_ok A embs 0 (by omega)
  have hTlen : (tokensFrom A 0 embs).length = embs.length := tokensFrom_length A 0 embs
  obtain ⟨tk, toks, hcons⟩ : ∃ tk toks, tokensFrom A 0 embs = tk :: toks := by
    cases h : tokensFrom A 0 embs with
    | nil =>
      rw [h] at hTlen
      cases embs with
      | nil => exact absurd rfl hne
      | cons e es => simp at hTlen
    | cons tk toks => exact ⟨tk, toks, rfl⟩
  simp only [PVAdapter.forward, hToks, hcons]
  rw [← hcons]
  rw [catDim1_slices b (tokensFrom A 0 embs) (by rw [hcons]; simp)
    (tokensFrom_mem_length A b 0 embs hb hrow)]
  simp only [specAdapterOutput]
  refine congrArg Except.ok ?_
  refine List.map_congr_left (fun bi hbi => ?_)
  rw [tokensFrom_slice A b embs 0 bi (List.mem_range.mp hbi) hb hrow]
  refine List.map_congr_left (fun i _ => ?_)
  rw [Nat.zero_add]

lemma foldl_vecAdd_length (d : ℕ) : ∀ (rs : List Vec) (acc : Vec),
    acc.length = d → (∀ r ∈ rs, r.length = d) → (rs.foldl vecAdd acc).length = d
  | [], _, ha, _ => ha
  | r :: rs, acc, ha, hr => by
    refine foldl_vecAdd_length d rs (vecAdd acc r) ?_
      (fun u hu => hr u (List.mem_cons_of_mem _ hu))
    simp [vecAdd, List.length_zipWith, ha, hr r (List.mem_cons_self _ _)]

lemma vecMean_length (d : ℕ) (m : Mat) (hne : m ≠ []) (hd : ∀ r ∈ m, r.length = d) :
    (vecMean m).length = d := by
  cases m with
  | nil => exact absurd rfl hne
  | cons r rs =>
    simp only [vecMean, vecSum, List.length_map]
    exact foldl_vecAdd_length d rs r (hd r (List.mem_cons_self _ _))
      (fun u hu => hd u (List.mem_cons_of_mem _ hu))

lemma specAdapterToken_length (A : PVAdapter) (i : ℕ) (row : Mat) (d : ℕ)
    (hdim : (A.mapping i (row.headD [])).length = d)
    (hdimp : ∀ v, (A.mapping_patch i v).length = d)
    (hrow : 2 ≤ row.length) :
    (specAdapterToken A i row).length = d := by
  have hdrop : (row.drop 1).length = row.length - 1 := List.length_drop 1 row
  have hmean : (vecMean ((row.drop 1).map (A.mapping_patch i))).length = d := by
    refine vecMean_length d _ (fun hnil => ?_) (fun v hv => ?_)
    · have : ((row.drop 1).map (A.mapping_patch i)).length = 0 := by rw [hnil]; rfl
      rw [List.length_map, hdrop] at this
      omega
    · obtain ⟨u, _, rfl⟩ := List.mem_map.mp hv
      exact hdimp u
  simp only [specAdapterToken, vecAdd, List.length_zipWith, hdim, hmean, min_self]

/-! ## Claim theorems: adapter -/

/-- C1: for an input list of N layer embeddings given to an adapter
constructed with num_tokens = N (N positive), where every embedding has
batch size b and at least two sequence positions, and both branch families
output width d, the forward pass returns exactly the concatenation, along
the sequence axis in layer-index order, of the per-layer tokens
global_i(CLS position) + mean over spatial positions of patch_i, yielding a
tensor of shape (b, N, d). -/
theorem adapter_forward_contract (A : PVAdapter) (embs : List Tensor3) (b d : ℕ)
    (hN : embs.length = A.num_tokens) (hpos : 0 < A.num_tokens)
    (hb : ∀ e ∈ embs, e.length = b)
    (hseq : ∀ e ∈ embs, ∀ r ∈ e, 2 ≤ r.length)
    (hdim : ∀ i v, (A.mapping i v).length = d)
    (hdimp : ∀ i v, (A.mapping_patch i v).length = d) :
    A.forward embs = .ok (specAdapterOutput A embs b) ∧
    (specAdapterOutput A embs b).length = b ∧
    ∀ row ∈ specAdapterOutput A embs b,
      row.length = A.num_tokens ∧ ∀ v ∈ row, v.length = d := by
  have hne : embs ≠ [] := by
    intro h
    rw [h] at hN
    simp only [List.length_nil] at hN
    omega
  have hrow : ∀ e ∈ embs, ∀ r ∈ e, r ≠ [] := by
    intro e he r hr hnil
    have := hseq e he r hr
    rw [hnil] at this
    simp at this
  refine ⟨forward_ok_spec A embs b hne (le_of_eq hN) hb hrow, by simp [specAdapterOutput],
    fun row hmem => ?_⟩
  simp only [specAdapterOutput, List.mem_map] at hmem
  obtain ⟨bi, hbi, rfl⟩ := hmem
  have hbi2 : bi < b := List.mem_range.mp hbi
  constructor
  · simp [hN]
  · intro v hv
    simp only [List.mem_map] at hv
    obtain ⟨i, hi, rfl⟩ := hv
    have hilt : i < embs.length := List.mem_range.mp hi
    have hE : embs.getD i [] ∈ embs := getD_mem [] embs i hilt
    have hR : (embs.getD i []).getD bi [] ∈ embs.getD i [] := by
      refine getD_mem [] _ bi ?_
      rw [hb _ hE]
      exact hbi2
    exact specAdapterToken_length A i _ d (hdim i _) (hdimp i)
      (hseq _ hE _ hR)

/-- C6 (amended): a call whose input list is longer than num_tokens hits a
failed branch lookup (AttributeError) at the first excess index; but a
nonempty call with fewer embeddings than num_tokens performs no length check
and silently returns a token set whose sequence length equals the input
length rather than num_tokens. -/
theorem adapter_length_mismatch (A : PVAdapter) (embs : List Tensor3) (b : ℕ) :
    (A.num_tokens < embs.length → A.forward embs = .error .attributeError) ∧
    (embs ≠ [] → embs.length ≤ A.num_tokens →
      (∀ e ∈ embs, e.length = b) → (∀ e ∈ embs, ∀ r ∈ e, 2 ≤ r.length) →
      A.forward embs = .ok (specAdapterOutput A embs b) ∧
      ∀ row ∈ specAdapterOutput A embs b, row.length = embs.length) := by
  constructor
  · intro h
    have herr := forwardTokens_err A embs 0 (by omega) (by omega)
    simp only [PVAdapter.forward, herr]
  · intro hne hle hb hseq
    have hrow : ∀ e ∈ embs, ∀ r ∈ e, r ≠ [] := by
      intro e he r hr hnil
      have := hseq e he r hr
      rw [hnil] at this
      simp at this
    refine ⟨forward_ok_spec A embs b hne hle hb hrow, fun row hmem => ?_⟩
    simp only [specAdapterOutput, List.mem_map] at hmem
    obtain ⟨bi, _, rfl⟩ := hmem
    simp

/-- Witness for C1: a concrete one-layer adapter on a batch-one, two-position
embedding of width one. -/
theorem adapter_forward_contract_witness :
    A0.forward [e0] = .ok (specAdapterOutput A0 [e0] 1) ∧
    (specAdapterOutput A0 [e0] 1).length = 1 ∧
    specAdapterOutput A0 [e0] 1 = [[[1]]] := by
  have h := adapter_forward_contract A0 [e0] 1 1 rfl (by decide) (by decide) (by decide)
    (fun i v => rfl) (fun i v => rfl)
  refine ⟨h.1, h.2.1, ?_⟩
  simp [specAdapterOutput, specAdapterToken, A0, e0, vecAdd, vecMean, vecSum,
    List.range_succ]

/-- Counterexample for C6: calling the two-token adapter A1 with a single
embedding is a length mismatch, yet no out-of-range access happens — the
forward pass silently returns a token set of sequence length one. -/
theorem adapter_length_mismatch_cex :
    ([e0].length ≠ A1.num_tokens) ∧ A1.forward [e0] = .ok [[[1]]] := by
  refine ⟨by decide, ?_⟩
  rw [forward_ok_spec A1 [e0] 1 (by simp) (by decide) (by decide) (by decide)]
  refine congrArg Except.ok ?_
  simp [specAdapterOutput, specAdapterToken, A1, e0, vecAdd, vecMean, vecSum,
    List.range_succ]

/-- Witness for C6 (amended): three embeddings on the two-token adapter raise
the AttributeError, while one embedding is silently accepted. -/
theorem adapter_length_mismatch_witness :
    A1.forward [e0, e0, e0] = .error .attributeError ∧
    A1.forward [e0] = .ok (specAdapterOutput A1 [e0] 1) := by
  have h3 := adapter_length_mismatch A1 [e0, e0, e0] 1
  have h1 := adapter_length_mismatch A1 [e0] 1
  exact ⟨h3.1 (by decide), (h1.2 (by simp) (by decide) (by decide) (by decide)).1⟩

end PhotoVerse
